import Mathlib

/-!
Verification of the smart-paste format detector of DevToyNative
(`src/utils/smartPaste.js`): a shallow embedding of `detectFormat`, the five
format descriptors (`DETECTION_PATTERNS`), the display-name tables and the
`SmartPaste` router, together with proofs of the specified properties.

Conventions of the embedding:
* JS strings are Lean `String`s; where the source measures `.length` or feeds
  text to `JSON.parse`, we convert to UTF-16 code units (`toUnitsL`).
* Host primitives consumed by the detector (`atob`, `JSON.parse`,
  `new RegExp`, `Date.now`) are modelled explicitly: `atob` follows the
  WHATWG forgiving-base64 decoder, `JSON.parse` is a full JSON parser over
  code units, the regex compiler is a simplified structural checker (no claim
  depends on its exact frontier), and the clock is an explicit `now`
  parameter (milliseconds since the epoch).
* Code that can throw is modelled with `Except JsError`; a `try`/`catch` of
  the source appears as a `match` on the `Except` value.
* Numbers compared by the source (confidences, the timestamp bounds, the
  printable ratio) are modelled as exact rationals `ℚ`; the source's doubles
  represent these decimal literals up to rounding that never crosses any of
  the comparisons performed.  A number produced by `JSON.parse` is kept as
  the exact rational its literal denotes, and the rounding to a double is
  applied at the one point this program observes such a number, its
  truthiness (see `truthy`).
* Member access on parsed JSON values follows the JavaScript prototype
  chain for the member names this program consults; of those names, exactly
  one exists on a relevant prototype (`String.prototype.sub`), see
  `getMemberOk`.
-/

set_option maxRecDepth 200000
set_option linter.unnecessarySeqFocus false
set_option exponentiation.threshold 1100

namespace DevToy

/-- A thrown JavaScript error, identified by its name. -/
structure JsError where
  name : String
deriving DecidableEq

instance {α β : Type} [DecidableEq α] [DecidableEq β] : DecidableEq (Except α β) := fun
  | .ok a, .ok b => if h : a = b then .isTrue (by rw [h]) else .isFalse (by simp [h])
  | .ok _, .error _ => .isFalse (by simp)
  | .error _, .ok _ => .isFalse (by simp)
  | .error a, .error b => if h : a = b then .isTrue (by rw [h]) else .isFalse (by simp [h])

/-- JavaScript `WhiteSpace` and `LineTerminator` characters: the set removed
by `String.prototype.trim` and matched by `\s`. -/
def jsWs (c : Char) : Bool :=
  decide (c.toNat = 32 ∨ c.toNat = 9 ∨ c.toNat = 10 ∨ c.toNat = 13 ∨
    c.toNat = 11 ∨ c.toNat = 12 ∨ c.toNat = 0xa0 ∨ c.toNat = 0x1680 ∨
    (0x2000 ≤ c.toNat ∧ c.toNat ≤ 0x200a) ∨ c.toNat = 0x2028 ∨ c.toNat = 0x2029 ∨
    c.toNat = 0x202f ∨ c.toNat = 0x205f ∨ c.toNat = 0x3000 ∨ c.toNat = 0xfeff)

/-- JS `String.prototype.trim`: remove leading and trailing JS whitespace. -/
def jsTrimL (l : List Char) : List Char :=
  ((l.dropWhile jsWs).reverse.dropWhile jsWs).reverse

/-- UTF-16 code units of a character list (astral characters become a
surrogate pair), the unit of measurement of JS `String.length`. -/
def toUnitsL (l : List Char) : List ℕ :=
  (l.map fun c =>
    if c.toNat < 0x10000 then [c.toNat]
    else [0xd800 + (c.toNat - 0x10000) / 0x400, 0xdc00 + (c.toNat - 0x10000) % 0x400]).flatten

/-- JS `String.length` of a character list. -/
def jsLengthL (l : List Char) : ℕ :=
  (toUnitsL l).length

/-- JS `str.split('.')`: maximal dot-free segments, keeping empty segments. -/
def splitOnDot : List Char → List (List Char)
  | [] => [[]]
  | c :: rest =>
    if c.toNat = 46 then [] :: splitOnDot rest
    else
      match splitOnDot rest with
      | s :: ss => (c :: s) :: ss
      | [] => [[c]]

/-- An ASCII decimal digit (the JS regex class `\d` and the digits consumed
by `parseInt`). -/
def isDigitC (c : Char) : Bool :=
  decide (48 ≤ c.toNat ∧ c.toNat ≤ 57)

/-- Numeric value of a run of ASCII decimal digits. -/
def digitsVal (ds : List Char) : ℕ :=
  ds.foldl (fun a c => 10 * a + (c.toNat - 48)) 0

/-- JS `parseInt(s, 10)`: skip leading whitespace, optional sign, then the
maximal run of decimal digits; `none` models `NaN`.  (The source only applies
this to strings of at most 13 digits, where the double result is exact.) -/
def jsParseInt (l : List Char) : Option ℤ :=
  let cs := l.dropWhile jsWs
  let signed : ℤ × List Char :=
    match cs with
    | c :: r => if c.toNat = 45 then (-1, r) else if c.toNat = 43 then (1, r) else (1, cs)
    | [] => (1, cs)
  let ds := signed.2.takeWhile isDigitC
  if ds.isEmpty then none else some (signed.1 * (digitsVal ds : ℤ))

/-- ASCII whitespace stripped by the WHATWG forgiving-base64 decoder. -/
def asciiWs (c : Char) : Bool :=
  decide (c.toNat = 9 ∨ c.toNat = 10 ∨ c.toNat = 12 ∨ c.toNat = 13 ∨ c.toNat = 32)

/-- Value of a standard base64 alphabet character. -/
def base64Val (c : Char) : Option ℕ :=
  if 65 ≤ c.toNat ∧ c.toNat ≤ 90 then some (c.toNat - 65)
  else if 97 ≤ c.toNat ∧ c.toNat ≤ 122 then some (c.toNat - 97 + 26)
  else if 48 ≤ c.toNat ∧ c.toNat ≤ 57 then some (c.toNat - 48 + 52)
  else if c.toNat = 43 then some 62
  else if c.toNat = 47 then some 63
  else none

/-- Strip at most two trailing `=` padding characters. -/
def lastIsPad (l : List Char) : Bool :=
  match l.getLast? with
  | some c => c.toNat == 61
  | none => false

def stripPad (l : List Char) : List Char :=
  let l1 := if lastIsPad l then l.dropLast else l
  if lastIsPad l1 then l1.dropLast else l1

/-- Map base64 characters to their 6-bit values, failing on any character
outside the alphabet. -/
def base64Vals : List Char → Except JsError (List ℕ)
  | [] => .ok []
  | c :: rest =>
    match base64Val c with
    | some v => (base64Vals rest).map (v :: ·)
    | none => .error ⟨"InvalidCharacterError"⟩

/-- Reassemble 6-bit groups into bytes; leftover bits of a trailing 2- or
3-character group are discarded, as in the forgiving decoder. -/
def decode64 : List ℕ → List ℕ
  | a :: b :: c :: d :: rest =>
    (a * 4 + b / 16) :: ((b % 16) * 16 + c / 4) :: ((c % 4) * 64 + d) :: decode64 rest
  | [a, b] => [a * 4 + b / 16]
  | [a, b, c] => [a * 4 + b / 16, (b % 16) * 16 + c / 4]
  | _ => []

/-- The host `atob`: WHATWG forgiving-base64 decode to a list of bytes.
Remove ASCII whitespace; when the length is a multiple of four, strip up to
two trailing `=`; reject a remainder of one; reject characters outside the
base64 alphabet; decode. -/
def atob (l : List Char) : Except JsError (List ℕ) :=
  let cs := l.filter fun c => !asciiWs c
  let cs := if cs.length % 4 == 0 then stripPad cs else cs
  if cs.length % 4 == 1 then .error ⟨"InvalidCharacterError"⟩
  else (base64Vals cs).map decode64

/-- A JavaScript value produced by `JSON.parse`, or reached from one by
member access.  Strings are lists of UTF-16 code units (JSON string escapes
may denote lone surrogates).  `fn` is a host function value: `JSON.parse`
never produces one, but prototype-chain member lookup can
(`String.prototype.sub`, see `getMemberOk`); a function is truthy and
strictly equal to no string. -/
inductive JsValue where
  | null
  | bool (b : Bool)
  | num (q : ℚ)
  | str (units : List ℕ)
  | arr (elems : List JsValue)
  | obj (fields : List (List ℕ × JsValue))
  | fn

/-- JSON insignificant whitespace (tab, line feed, carriage return, space). -/
def jsonWsU (u : ℕ) : Bool :=
  (u == 9) || (u == 10) || (u == 13) || (u == 32)

/-- ASCII decimal digit, as a code unit. -/
def isDigitU (u : ℕ) : Bool :=
  decide (48 ≤ u) && decide (u ≤ 57)

/-- Numeric value of a run of ASCII digit code units. -/
def digitsValU (ds : List ℕ) : ℕ :=
  ds.foldl (fun a u => 10 * a + (u - 48)) 0

/-- Value of a hexadecimal digit code unit. -/
def hexValU (u : ℕ) : Option ℕ :=
  if isDigitU u then some (u - 48)
  else if 65 ≤ u ∧ u ≤ 70 then some (u - 55)
  else if 97 ≤ u ∧ u ≤ 102 then some (u - 87)
  else none

/-- Parse the body of a JSON string (the opening quote already consumed),
returning its code units and the remaining input. -/
def parseStrU : ℕ → List ℕ → Option (List ℕ × List ℕ)
  | 0, _ => none
  | _, [] => none
  | fuel + 1, u :: rest =>
    if u == 34 then some ([], rest)
    else if u == 92 then
      match rest with
      | [] => none
      | e :: rest2 =>
        if e == 34 || e == 92 || e == 47 then
          (parseStrU fuel rest2).map fun p => (e :: p.1, p.2)
        else if e == 98 then (parseStrU fuel rest2).map fun p => (8 :: p.1, p.2)
        else if e == 102 then (parseStrU fuel rest2).map fun p => (12 :: p.1, p.2)
        else if e == 110 then (parseStrU fuel rest2).map fun p => (10 :: p.1, p.2)
        else if e == 114 then (parseStrU fuel rest2).map fun p => (13 :: p.1, p.2)
        else if e == 116 then (parseStrU fuel rest2).map fun p => (9 :: p.1, p.2)
        else if e == 117 then
          match rest2 with
          | h1 :: h2 :: h3 :: h4 :: rest3 =>
            match hexValU h1, hexValU h2, hexValU h3, hexValU h4 with
            | some a, some b, some c, some d =>
              (parseStrU fuel rest3).map fun p =>
                ((a * 4096 + b * 256 + c * 16 + d) :: p.1, p.2)
            | _, _, _, _ => none
          | _ => none
        else none
    else if u < 32 then none
    else (parseStrU fuel rest).map fun p => (u :: p.1, p.2)

/-- The exact rational `10 ^ e` for an integer exponent `e`. -/
def tenPow (e : ℤ) : ℚ :=
  if 0 ≤ e then ((10 ^ e.toNat : ℕ) : ℚ) else mkRat 1 (10 ^ (-e).toNat)

/-- Parse a JSON number (sign and first digit still in the input).  The
value is kept as the exact rational the literal denotes; the source's
conversion to a double is applied at the one point this program observes a
parsed number, its truthiness (see `truthy`). -/
def parseNumU (input : List ℕ) : Option (ℚ × List ℕ) :=
  let sgnR : ℚ × List ℕ := match input with | 45 :: r => (-1, r) | _ => (1, input)
  let intPart : Option (List ℕ × List ℕ) :=
    match sgnR.2 with
    | 48 :: r => some ([48], r)
    | u :: _ =>
      if isDigitU u then some (sgnR.2.takeWhile isDigitU, sgnR.2.dropWhile isDigitU)
      else none
    | [] => none
  match intPart with
  | none => none
  | some (ids, r2) =>
    let fr : Option (List ℕ × List ℕ) :=
      match r2 with
      | 46 :: r3 =>
        let fds := r3.takeWhile isDigitU
        if fds.isEmpty then none else some (fds, r3.dropWhile isDigitU)
      | _ => some ([], r2)
    match fr with
    | none => none
    | some (fds, r4) =>
      let ex : Option (ℤ × List ℕ) :=
        match r4 with
        | e :: r5 =>
          if e == 101 || e == 69 then
            let sr : ℤ × List ℕ :=
              match r5 with
              | 43 :: r6 => (1, r6)
              | 45 :: r6 => (-1, r6)
              | _ => (1, r5)
            let eds := sr.2.takeWhile isDigitU
            if eds.isEmpty then none
            else some (sr.1 * (digitsValU eds : ℤ), sr.2.dropWhile isDigitU)
          else some (0, r4)
        | [] => some (0, [])
      match ex with
      | none => none
      | some (e, r7) =>
        some (sgnR.1 * (digitsValU (ids ++ fds) : ℚ) * tenPow (e - (fds.length : ℤ)), r7)

/-- What one recursive step of the JSON grammar parses: a single value, the
element list of an array, or the member list of an object. -/
inductive JsonMode where
  | value
  | elems
  | membs

inductive JsonOut where
  | val (v : JsValue)
  | arr (l : List JsValue)
  | obj (l : List (List ℕ × JsValue))

/-- The recursive descent over the JSON grammar, fuelled so that the
recursion is structural.  `value` parses one JSON value after optional
whitespace; `elems` parses the elements of a non-empty array (after `[`);
`membs` parses the members of a non-empty object (after the opening
brace). -/
def parseU : ℕ → JsonMode → List ℕ → Option (JsonOut × List ℕ)
  | 0, _, _ => none
  | fuel + 1, .value, input =>
    match input.dropWhile jsonWsU with
    | [] => none
    | u :: rest =>
      if u == 110 then
        match rest with
        | 117 :: 108 :: 108 :: r2 => some (.val .null, r2)
        | _ => none
      else if u == 116 then
        match rest with
        | 114 :: 117 :: 101 :: r2 => some (.val (.bool true), r2)
        | _ => none
      else if u == 102 then
        match rest with
        | 97 :: 108 :: 115 :: 101 :: r2 => some (.val (.bool false), r2)
        | _ => none
      else if u == 34 then
        match parseStrU (rest.length + 1) rest with
        | some (str, r2) => some (.val (.str str), r2)
        | none => none
      else if u == 91 then
        match rest.dropWhile jsonWsU with
        | 93 :: r3 => some (.val (.arr []), r3)
        | _ =>
          match parseU fuel .elems rest with
          | some (.arr l, r) => some (.val (.arr l), r)
          | _ => none
      else if u == 123 then
        match rest.dropWhile jsonWsU with
        | 125 :: r3 => some (.val (.obj []), r3)
        | _ =>
          match parseU fuel .membs rest with
          | some (.obj l, r) => some (.val (.obj l), r)
          | _ => none
      else if u == 45 || isDigitU u then
        match parseNumU (u :: rest) with
        | some (q, r2) => some (.val (.num q), r2)
        | none => none
      else none
  | fuel + 1, .elems, input =>
    match parseU fuel .value input with
    | some (.val v, r) =>
      (match r.dropWhile jsonWsU with
       | 44 :: r3 =>
         match parseU fuel .elems r3 with
         | some (.arr l, r4) => some (.arr (v :: l), r4)
         | _ => none
       | 93 :: r3 => some (.arr [v], r3)
       | _ => none)
    | _ => none
  | fuel + 1, .membs, input =>
    match input.dropWhile jsonWsU with
    | 34 :: r1 =>
      match parseStrU (r1.length + 1) r1 with
      | none => none
      | some (key, r2) =>
        match r2.dropWhile jsonWsU with
        | 58 :: r4 =>
          match parseU fuel .value r4 with
          | some (.val v, r5) =>
            (match r5.dropWhile jsonWsU with
             | 44 :: r7 =>
               match parseU fuel .membs r7 with
               | some (.obj l, r8) => some (.obj ((key, v) :: l), r8)
               | _ => none
             | 125 :: r7 => some (.obj [(key, v)], r7)
             | _ => none)
          | _ => none
        | _ => none
    | _ => none

/-- Parse one JSON value, skipping leading whitespace. -/
def parseValueU (fuel : ℕ) (input : List ℕ) : Option (JsValue × List ℕ) :=
  match parseU fuel .value input with
  | some (.val v, r) => some (v, r)
  | _ => none

/-- The host `JSON.parse` over UTF-16 code units: one value, then only
whitespace may remain. -/
def jsonParse (input : List ℕ) : Except JsError JsValue :=
  match parseValueU (input.length + 1) input with
  | some (v, r) => if (r.dropWhile jsonWsU).isEmpty then .ok v else .error ⟨"SyntaxError"⟩
  | none => .error ⟨"SyntaxError"⟩

def typKey : List ℕ := [116, 121, 112]

def algKey : List ℕ := [97, 108, 103]

def iatKey : List ℕ := [105, 97, 116]

def expKey : List ℕ := [101, 120, 112]

def subKey : List ℕ := [115, 117, 98]

/-- The UTF-16 units of the string literal `'JWT'`. -/
def jwtUnits : List ℕ := [74, 87, 84]

/-- JS member lookup `v.key` on a non-null parsed JSON value, for the member
names this program consults — `typ`, `alg` on the decoded header and `iat`,
`exp`, `sub` on the decoded payload (`none` models `undefined`).  On an
object the own properties decide: duplicate keys in a JSON object text
resolve to the last occurrence, as in `JSON.parse`, and when the name is
absent the lookup continues to `Object.prototype`, which carries none of the
five names.  On any other base the lookup goes to the wrapper prototype, and
of the five names exactly one exists on one of those: `sub` on
`String.prototype` (the Annex-B HTML-wrapper method), a function;
`Number.prototype`, `Boolean.prototype` and `Array.prototype` carry none of
them. -/
def getMemberOk (v : JsValue) (key : List ℕ) : Option JsValue :=
  match v with
  | .obj fields => ((fields.filter fun f => f.1 == key).getLast?).map Prod.snd
  | .str _ => if key == subKey then some .fn else none
  | _ => none

/-- JS property access `v.key`, which throws a `TypeError` when the base
value is `null`. -/
def getMember (v : JsValue) (key : List ℕ) : Except JsError (Option JsValue) :=
  match v with
  | .null => .error ⟨"TypeError"⟩
  | _ => .ok (getMemberOk v key)

/-- JS truthiness of a possibly-`undefined` value.  A parsed number carries
the exact rational value of its JSON literal, while the source tests the
double it rounds to; that double is zero exactly when the exact value lies
within `2 ^ (-1075)` of zero (round to nearest, ties to even, between `0`
and the smallest subnormal `2 ^ (-1074)`; an overflowing literal gives a
truthy infinity, and `JSON.parse` cannot produce `NaN`), so number
truthiness is decided at that threshold. -/
def truthy : Option JsValue → Bool
  | none => false
  | some .null => false
  | some (.bool b) => b
  | some (.num q) => decide (q < mkRat (-1) (2 ^ 1075) ∨ mkRat 1 (2 ^ 1075) < q)
  | some (.str u) => !u.isEmpty
  | some (.arr _) => true
  | some (.obj _) => true
  | some .fn => true

/-- The source's two global replacements, `-` to `+` and `_` to `/`:
base64url to base64. -/
def b64urlNormalize (l : List Char) : List Char :=
  l.map fun c => if c = '-' then '+' else if c = '_' then '/' else c

/-- Member of the character class `[A-Za-z0-9_-]`. -/
def alphaNumNat (n : ℕ) : Prop :=
  (65 ≤ n ∧ n ≤ 90) ∨ (97 ≤ n ∧ n ≤ 122) ∨ (48 ≤ n ∧ n ≤ 57)

instance (n : ℕ) : Decidable (alphaNumNat n) := by
  unfold alphaNumNat; infer_instance

def urlB64Char (c : Char) : Bool :=
  decide (alphaNumNat c.toNat ∨ c.toNat = 95 ∨ c.toNat = 45)

/-- Structural test of the `jwt` descriptor: the regex
`^[A-Za-z0-9_-]+\.[A-Za-z0-9_-]+\.[A-Za-z0-9_-]*$`, stated via the dot
split: the class contains no dot, so a match is exactly three dot-separated
alphabet segments with the first two non-empty. -/
def jwtPattern (l : List Char) : Bool :=
  match splitOnDot l with
  | [p0, p1, p2] =>
    !p0.isEmpty && !p1.isEmpty && p0.all urlB64Char && p1.all urlB64Char && p2.all urlB64Char
  | _ => false

/-- Strict equality `v === 'JWT'` of a member against the string `'JWT'`. -/
def isJwtStr : Option JsValue → Bool
  | some (.str u) => u == jwtUnits
  | _ => false

/-- The `try` block of the jwt validator: base64url-decode and JSON-parse
header and payload, then evaluate
`header.typ === 'JWT' || header.alg || payload.iat || payload.exp || payload.sub`
with JS short-circuiting; property access on a `null` base throws.  Every
match on an `.error` propagates the thrown exception to the `catch`. -/
def jwtTryBody (p0 p1 : List Char) : Except JsError Bool :=
  match atob (b64urlNormalize p0) with
  | .error e => .error e
  | .ok hb =>
    match jsonParse hb with
    | .error e => .error e
    | .ok header =>
      match atob (b64urlNormalize p1) with
      | .error e => .error e
      | .ok pb =>
        match jsonParse pb with
        | .error e => .error e
        | .ok payload =>
          match getMember header typKey with
          | .error e => .error e
          | .ok t =>
            if isJwtStr t then .ok true
            else
              match getMember header algKey with
              | .error e => .error e
              | .ok a =>
                if truthy a then .ok true
                else
                  match getMember payload iatKey with
                  | .error e => .error e
                  | .ok i =>
                    if truthy i then .ok true
                    else
                      match getMember payload expKey with
                      | .error e => .error e
                      | .ok x =>
                        if truthy x then .ok true
                        else
                          match getMember payload subKey with
                          | .error e => .error e
                          | .ok sv => .ok (truthy sv)

/-- The jwt semantic validator with its exception flow explicit: split the
trimmed content on dots, require exactly three parts, then run the `try`
block; its `catch` (the inner match) turns any thrown error into `false`. -/
def jwtValidateE (content : List Char) : Except JsError Bool :=
  match splitOnDot (jsTrimL content) with
  | [p0, p1, _p2] =>
    match jwtTryBody p0 p1 with
    | .ok b => .ok b
    | .error _ => .ok false
  | _ => .ok false

/-- The jwt semantic validator as the total function it is in the source. -/
def jwtValidate (content : List Char) : Bool :=
  match jwtValidateE content with
  | .ok b => b
  | .error _ => false

/-- Structural test of the `json` descriptor: the regex `^[\s]*[\[{]`. -/
def jsonPattern (l : List Char) : Bool :=
  match l.dropWhile jsWs with
  | c :: _ => (c.toNat == 91) || (c.toNat == 123)
  | [] => false

/-- The json semantic validator: `JSON.parse(content.trim())` succeeds; its
`catch` turns a parse error into `false`. -/
def jsonValidateE (content : List Char) : Except JsError Bool :=
  match jsonParse (toUnitsL (jsTrimL content)) with
  | .ok _ => .ok true
  | .error _ => .ok false

def jsonValidate (content : List Char) : Bool :=
  match jsonValidateE content with
  | .ok b => b
  | .error _ => false

/-- Structural test of the `unixTimestamp` descriptor: `^\d{10,13}$`. -/
def tsPattern (l : List Char) : Bool :=
  l.all isDigitC && decide (10 ≤ l.length) && decide (l.length ≤ 13)

/-- Semantic validator of `unixTimestamp`: `parseInt` the trimmed content
and bound it by roughly fifty years past `now` (milliseconds since epoch),
as seconds for a 10-character content and as milliseconds for a 13-character
one.  It has no `try`/`catch` in the source and none of its operations can
throw; `parseInt` returning `NaN` fails both comparisons, which the `none`
branch models. -/
def tsValidate (now : ℕ) (content : List Char) : Bool :=
  match jsParseInt (jsTrimL content) with
  | none => false
  | some num =>
    if jsLengthL content == 10 then
      decide (0 < num) && decide ((num : ℚ) < (now : ℚ) / 1000 + 1577836800)
    else if jsLengthL content == 13 then
      decide (0 < num) && decide ((num : ℚ) < (now : ℚ) + 1577836800000)
    else false

/-- A regex flag character, the class `[gimsuy]`. -/
def regexFlagChar (c : Char) : Bool :=
  decide (c.toNat = 103 ∨ c.toNat = 105 ∨ c.toNat = 109 ∨ c.toNat = 115 ∨
    c.toNat = 117 ∨ c.toNat = 121)

/-- A JS LineTerminator, which `.` does not match. -/
def lineTerm (c : Char) : Bool :=
  decide (c.toNat = 10 ∨ c.toNat = 13 ∨ c.toNat = 0x2028 ∨ c.toNat = 0x2029)

/-- The decomposition both regexes of the `regex` descriptor perform
(`^\/.*\/[gimsuy]*$` and its capturing variant): a leading `/`, a body free
of line terminators up to the last `/`, and only flag characters after it.
Greedy matching makes the last slash the only possible split point, because
a flag character is never `/`. -/
def regexLiteralParts (l : List Char) : Option (List Char × List Char) :=
  match l with
  | c :: rest =>
    if c.toNat = 47 then
      let rev := rest.reverse
      let flagsRev := rev.takeWhile regexFlagChar
      match rev.drop flagsRev.length with
      | c2 :: midRev =>
        if c2.toNat = 47 then
          if midRev.any lineTerm then none
          else some (midRev.reverse, flagsRev.reverse)
        else none
      | [] => none
    else none
  | [] => none

/-- Structural test of the `regex` descriptor: `^\/.*\/[gimsuy]*$`. -/
def regexPattern (l : List Char) : Bool :=
  (regexLiteralParts l).isSome

/-- Simplified syntax check of a regex pattern body: balanced groups and
classes, no dangling escape (arguments: open-group depth, inside-class). -/
def regexSyntaxOk : ℕ → Bool → List Char → Bool
  | depth, inClass, [] => depth == 0 && !inClass
  | depth, inClass, '\\' :: rest =>
    match rest with
    | _ :: r2 => regexSyntaxOk depth inClass r2
    | [] => false
  | depth, true, c :: rest =>
    if c = ']' then regexSyntaxOk depth false rest else regexSyntaxOk depth true rest
  | depth, false, c :: rest =>
    if c = '(' then regexSyntaxOk (depth + 1) false rest
    else if c = ')' then decide (0 < depth) && regexSyntaxOk (depth - 1) false rest
    else if c = '[' then regexSyntaxOk depth true rest
    else regexSyntaxOk depth false rest

/-- Modelled host primitive, simplified: success of `new RegExp(pat, flags)`.
Duplicate flags are rejected exactly as the host does; pattern syntax is
approximated by `regexSyntaxOk`.  No theorem below depends on the exact
acceptance frontier of the host compiler, only on it being a fixed total
predicate. -/
def compileRegExp (pat flags : List Char) : Except JsError Unit :=
  if flags.Nodup ∧ regexSyntaxOk 0 false pat = true then .ok () else .error ⟨"SyntaxError"⟩

/-- The regex semantic validator: re-match the literal shape with capture
groups, then compile the extracted pattern with the extracted flags; its
`catch` turns a compilation error into `false`. -/
def regexValidateE (content : List Char) : Except JsError Bool :=
  match regexLiteralParts (jsTrimL content) with
  | some (pat, flags) =>
    match compileRegExp pat flags with
    | .ok _ => .ok true
    | .error _ => .ok false
  | none => .ok false

def regexValidate (content : List Char) : Bool :=
  match regexValidateE content with
  | .ok b => b
  | .error _ => false

/-- Member of the character class `[A-Za-z0-9+/=_-]`. -/
def b64AlphaChar (c : Char) : Bool :=
  decide (alphaNumNat c.toNat ∨ c.toNat = 43 ∨ c.toNat = 47 ∨ c.toNat = 61 ∨
    c.toNat = 95 ∨ c.toNat = 45)

/-- Structural test of the `base64` descriptor: `^[A-Za-z0-9+/=_-]{20,}$`. -/
def base64Pattern (l : List Char) : Bool :=
  l.all b64AlphaChar && decide (20 ≤ l.length)

/-- Fraction of decoded bytes in the range the source treats as printable,
`32 ≤ code < 127`.  An empty list yields `0`; the source's `0/0 = NaN` fails
the only comparison made with it, exactly as `0` does. -/
def printableFrac (bytes : List ℕ) : ℚ :=
  ((bytes.filter fun b => decide (32 ≤ b) && decide (b < 127)).length : ℚ) / (bytes.length : ℚ)

/-- The base64 semantic validator: refuse content with a dot (deferring to
jwt), then base64url-decode; accept when the decoded bytes are mostly
printable or fewer than 50; its `catch` turns a decode error into `false`. -/
def base64ValidateE (content : List Char) : Except JsError Bool :=
  let trimmed := jsTrimL content
  if trimmed.any (fun c => c.toNat == 46) then .ok false
  else
    match atob (b64urlNormalize trimmed) with
    | .ok decoded =>
      .ok (decide (printableFrac decoded > 7 / 10) || decide (decoded.length < 50))
    | .error _ => .ok false

def base64Validate (content : List Char) : Bool :=
  match base64ValidateE content with
  | .ok b => b
  | .error _ => false

/-- A detection candidate `{format, tool, confidence}`. -/
structure DetectionResult where
  format : String
  tool : String
  confidence : ℚ
deriving DecidableEq

/-- One pass of the `detectFormat` loop over
`DETECTION_ORDER = ['jwt', 'json', 'unixTimestamp', 'regex', 'base64']`:
each structural pattern is tested first, the semantic validator only on
success, and every descriptor passing both contributes its record, in
order.  Confidences are the source's literals as exact rationals. -/
def candidates (now : ℕ) (trimmed : List Char) : List DetectionResult :=
  (if jwtPattern trimmed && jwtValidate trimmed then [⟨"jwt", "jwt", 95 / 100⟩] else []) ++
  (if jsonPattern trimmed && jsonValidate trimmed then [⟨"json", "json", 9 / 10⟩] else []) ++
  (if tsPattern trimmed && tsValidate now trimmed then
    [⟨"unixTimestamp", "timestamp", 85 / 100⟩] else []) ++
  (if regexPattern trimmed && regexValidate trimmed then [⟨"regex", "regex", 9 / 10⟩] else []) ++
  (if base64Pattern trimmed && base64Validate trimmed then [⟨"base64", "base64", 7 / 10⟩] else [])

/-- Stable insertion into a list already sorted by decreasing confidence:
the inserted element passes over strictly greater confidences and stops at
the first less-or-equal one, so earlier elements of equal confidence stay in
front. -/
def insertDesc (x : DetectionResult) : List DetectionResult → List DetectionResult
  | [] => [x]
  | y :: ys => if x.confidence < y.confidence then y :: insertDesc x ys else x :: y :: ys

/-- The stable descending-by-confidence sort, modelling the (stable)
`results.sort((a, b) => b.confidence - a.confidence)` of the source. -/
def sortDesc : List DetectionResult → List DetectionResult
  | [] => []
  | x :: xs => insertDesc x (sortDesc xs)

/-- The classifier `detectFormat(content)`: null for empty content and for content that
trims to nothing; otherwise collect candidates in `DETECTION_ORDER`, sort
stably by descending confidence and return the first, or null when no
descriptor matched.  `now` is the ambient `Date.now()` reading consulted
by the `unixTimestamp` validator. -/
def detectFormat (now : ℕ) (content : String) : Option DetectionResult :=
  if content.toList.isEmpty then none
  else
    let trimmed := jsTrimL content.toList
    if trimmed.isEmpty then none
    else
      match sortDesc (candidates now trimmed) with
      | [] => none
      | r :: _ => some r

/-- The table `getFormatDisplayName`: fixed lookup, falling through to the key. -/
def getFormatDisplayName (format : String) : String :=
  if format = "jwt" then ("JWT Token")
  else if format = "json" then ("JSON")
  else if format = "base64" then ("Base64")
  else if format = "unixTimestamp" then ("Unix Timestamp")
  else if format = "regex" then ("Regular Expression")
  else format

/-- The table `getToolDisplayName`: fixed lookup, falling through to the key. -/
def getToolDisplayName (tool : String) : String :=
  if tool = "jwt" then ("JWT Decoder")
  else if tool = "json" then ("JSON Formatter")
  else if tool = "base64" then ("Base64 Encoder/Decoder")
  else if tool = "timestamp" then ("Unix Time Converter")
  else if tool = "regex" then ("Regex Tester")
  else tool

/-- The enriched record `processContent` delivers to `onDetect`. -/
structure PasteRecord where
  content : String
  format : String
  tool : String
  confidence : ℚ
  displayName : String
  toolName : String
deriving DecidableEq

/-- The record `processContent` delivers for given content: the enrichment
of a successful detection, or the synthetic unknown-to-JSON fallback. -/
def processRecord (now : ℕ) (content : String) : PasteRecord :=
  match detectFormat now content with
  | some d =>
    ⟨content, d.format, d.tool, d.confidence,
      getFormatDisplayName d.format, getToolDisplayName d.tool⟩
  | none => ⟨content, "unknown", "json", 0, "Unknown Format", "JSON Formatter"⟩

/-- The callback invocations a router method performed: the arguments of its
`onDetect` calls and of its `onError` calls, in order. -/
structure CallTrace where
  detectCalls : List PasteRecord
  errorCalls : List JsError
deriving DecidableEq

/-- The `SmartPaste` router state: the two stored callbacks and the
`enabled` flag.  A caller-supplied `onDetect` may itself throw, which the
`Except` codomain models. -/
structure SmartPaste where
  onDetect : PasteRecord → Except JsError Unit
  onError : JsError → Unit
  enabled : Bool

/-- The `SmartPaste` constructor: each absent callback defaults to a no-op,
and the router starts enabled. -/
def SmartPaste.make (onDetectOpt : Option (PasteRecord → Except JsError Unit))
    (onErrorOpt : Option (JsError → Unit)) : SmartPaste :=
  ⟨onDetectOpt.getD fun _ => .ok (), onErrorOpt.getD fun _ => (), true⟩

/-- The method `processContent(content)`: compute the detection and deliver the
enriched or fallback record to `onDetect`; the surrounding `try`/`catch`
(the match below) routes an exception thrown by the callback to `onError`.
Returns the unchanged router state and the trace of callback invocations. -/
def SmartPaste.processContent (sp : SmartPaste) (now : ℕ) (content : String) :
    SmartPaste × CallTrace :=
  let r := processRecord now content
  match sp.onDetect r with
  | .ok _ => (sp, ⟨[r], []⟩)
  | .error e => (sp, ⟨[r], [e]⟩)

/-- The method `analyze(content)`: return the raw classifier result; no callback is
invoked and no state is touched. -/
def SmartPaste.analyze (sp : SmartPaste) (now : ℕ) (content : String) :
    Option DetectionResult × SmartPaste × CallTrace :=
  (detectFormat now content, sp, ⟨[], []⟩)

/-- The candidate collection with the exception flow explicit: each
semantic validator runs in `Except`, and no handler exists at this level,
mirroring the `detectFormat` loop, which installs none.  The timestamp
validator is exception-free in the source and runs pure. -/
def candidatesE (now : ℕ) (trimmed : List Char) : Except JsError (List DetectionResult) :=
  match (if jwtPattern trimmed then jwtValidateE trimmed else .ok false) with
  | .error e => .error e
  | .ok b1 =>
    match (if jsonPattern trimmed then jsonValidateE trimmed else .ok false) with
    | .error e => .error e
    | .ok b2 =>
      match (if tsPattern trimmed then Except.ok (tsValidate now trimmed) else .ok false) with
      | .error e => .error e
      | .ok b3 =>
        match (if regexPattern trimmed then regexValidateE trimmed else .ok false) with
        | .error e => .error e
        | .ok b4 =>
          match (if base64Pattern trimmed then base64ValidateE trimmed else .ok false) with
          | .error e => .error e
          | .ok b5 =>
            .ok ((if b1 then [⟨"jwt", "jwt", 95 / 100⟩] else []) ++
              (if b2 then [⟨"json", "json", 9 / 10⟩] else []) ++
              (if b3 then [⟨"unixTimestamp", "timestamp", 85 / 100⟩] else []) ++
              (if b4 then [⟨"regex", "regex", 9 / 10⟩] else []) ++
              (if b5 then [⟨"base64", "base64", 7 / 10⟩] else []))

/-- The classifier `detectFormat` with the exception flow explicit. -/
def detectFormatE (now : ℕ) (content : String) : Except JsError (Option DetectionResult) :=
  if content.toList.isEmpty then .ok none
  else
    let trimmed := jsTrimL content.toList
    if trimmed.isEmpty then .ok none
    else
      (candidatesE now trimmed).map fun rs =>
        match sortDesc rs with
        | [] => none
        | r :: _ => some r

/-- The method `processContent` with the exception flow explicit: the only site that
could throw is the caller-supplied `onDetect`, and the source's
`try`/`catch` (the outer match) routes that to `onError` instead of
letting it escape. -/
def processContentE (sp : SmartPaste) (now : ℕ) (content : String) :
    Except JsError CallTrace :=
  let r := processRecord now content
  let body : Except JsError CallTrace :=
    match sp.onDetect r with
    | .ok _ => .ok ⟨[r], []⟩
    | .error e => .error e
  match body with
  | .ok t => .ok t
  | .error e => .ok ⟨[r], [e]⟩

/-! Formalized claim conditions, phrased from the specification sentences
the claims quote (decidable, so concrete inputs can be checked). -/

/-- The unixTimestamp acceptance condition of the specification, with the
exact bounds of the code: the text is all ASCII digits of length exactly 10
or 13, and its value is positive and below roughly fifty years past `now`
(as seconds for length 10, milliseconds for length 13). -/
def TsCond (now : ℕ) (t : List Char) : Prop :=
  (∀ c ∈ t, isDigitC c = true) ∧
  ((t.length = 10 ∧ 0 < digitsVal t ∧ (digitsVal t : ℚ) < (now : ℚ) / 1000 + 1577836800) ∨
   (t.length = 13 ∧ 0 < digitsVal t ∧ (digitsVal t : ℚ) < (now : ℚ) + 1577836800000))

instance (now : ℕ) (t : List Char) : Decidable (TsCond now t) := by
  unfold TsCond; infer_instance

/-- Decode success plus acceptance for the base64 validator: decoding
succeeds, and the decoded length is below 50 or the printable fraction
exceeds 0.7 — with the printable range `[32,127)` the code actually uses. -/
def decodeOkB (t : List Char) : Bool :=
  match atob (b64urlNormalize t) with
  | .ok decoded => decide (decoded.length < 50) || decide (7 / 10 < printableFrac decoded)
  | .error _ => false

def DecodeOkCond (t : List Char) : Prop :=
  decodeOkB t = true

instance (t : List Char) : Decidable (DecodeOkCond t) := by
  unfold DecodeOkCond; infer_instance

/-- The base64 acceptance condition (amended claim C7): alphabet membership,
length at least 20, no dot, and `DecodeOkCond`. -/
def Base64Cond (t : List Char) : Prop :=
  (∀ c ∈ t, b64AlphaChar c = true) ∧ 20 ≤ t.length ∧ (∀ c ∈ t, c.toNat ≠ 46) ∧
    DecodeOkCond t

instance (t : List Char) : Decidable (Base64Cond t) := by
  unfold Base64Cond; infer_instance

/-- Fraction of decoded bytes in `[32,126)`, the range claim C7 states. -/
def printableFrac126 (bytes : List ℕ) : ℚ :=
  ((bytes.filter fun b => decide (32 ≤ b) && decide (b < 126)).length : ℚ) /
    (bytes.length : ℚ)

def decodeOk126B (t : List Char) : Bool :=
  match atob (b64urlNormalize t) with
  | .ok decoded => decide (decoded.length < 50) || decide (7 / 10 < printableFrac126 decoded)
  | .error _ => false

def DecodeOkCond126 (t : List Char) : Prop :=
  decodeOk126B t = true

instance (t : List Char) : Decidable (DecodeOkCond126 t) := by
  unfold DecodeOkCond126; infer_instance

/-- Claim C7's validation condition as literally stated, with its printable
range `[32,126)`. -/
def Base64CondSpec (t : List Char) : Prop :=
  (∀ c ∈ t, b64AlphaChar c = true) ∧ 20 ≤ t.length ∧ (∀ c ∈ t, c.toNat ≠ 46) ∧
    DecodeOkCond126 t

instance (t : List Char) : Decidable (Base64CondSpec t) := by
  unfold Base64CondSpec; infer_instance

def isNullV : JsValue → Bool
  | .null => true
  | _ => false

def isObjV : JsValue → Bool
  | .obj _ => true
  | _ => false

/-- Decode one jwt part: base64url-decode, then JSON-parse the bytes. -/
def decodeJwtPart (p : List Char) : Except JsError JsValue :=
  match atob (b64urlNormalize p) with
  | .ok bytes => jsonParse bytes
  | .error e => .error e

/-- The jwt acceptance condition (amended claim C2): exactly three
dot-separated parts of the trimmed content; header and payload both decode
and parse as JSON; the header is non-null and either its `typ` is exactly
`'JWT'` or its `alg` member is truthy, or else the payload is non-null and
one of its `iat`, `exp`, `sub` members is truthy.  Member lookup is
`getMemberOk`, so a payload that decodes to a JSON string has a truthy
`sub` (the `String.prototype.sub` function), and number truthiness is that
of the rounded double.  (A null header — or a null payload once its members
are consulted — throws inside the validator and is caught as a
rejection.) -/
def jwtCondB (c : List Char) : Bool :=
  match splitOnDot (jsTrimL c) with
  | [p0, p1, _] =>
    match decodeJwtPart p0, decodeJwtPart p1 with
    | .ok hv, .ok pv =>
      !isNullV hv &&
        (isJwtStr (getMemberOk hv typKey) || truthy (getMemberOk hv algKey) ||
          (!isNullV pv && (truthy (getMemberOk pv iatKey) || truthy (getMemberOk pv expKey) ||
            truthy (getMemberOk pv subKey))))
    | _, _ => false
  | _ => false

def JwtCond (c : List Char) : Prop :=
  jwtCondB c = true

instance (c : List Char) : Decidable (JwtCond c) := by
  unfold JwtCond; infer_instance

/-- Claim C2's validator condition as literally stated: both parts decode to
JSON objects, and the header's `typ` equals `'JWT'`, or the header has an
`alg` member, or the payload has an `iat`, `exp` or `sub` member (presence,
not truthiness). -/
def jwtCondSpecB (c : List Char) : Bool :=
  match splitOnDot (jsTrimL c) with
  | [p0, p1, _] =>
    match decodeJwtPart p0, decodeJwtPart p1 with
    | .ok hv, .ok pv =>
      isObjV hv && isObjV pv &&
        (isJwtStr (getMemberOk hv typKey) || (getMemberOk hv algKey).isSome ||
          (getMemberOk pv iatKey).isSome || (getMemberOk pv expKey).isSome ||
          (getMemberOk pv subKey).isSome)
    | _, _ => false
  | _ => false

def JwtCondSpec (c : List Char) : Prop :=
  jwtCondSpecB c = true

instance (c : List Char) : Decidable (JwtCondSpec c) := by
  unfold JwtCondSpec; infer_instance

/-! Generic lemmas about the stable descending sort. -/

theorem insertDesc_length (x : DetectionResult) (l : List DetectionResult) :
    (insertDesc x l).length = l.length + 1 := by
  induction l with
  | nil => rfl
  | cons y ys ih =>
    by_cases h : x.confidence < y.confidence <;> simp [insertDesc, h, ih]

theorem sortDesc_length (l : List DetectionResult) : (sortDesc l).length = l.length := by
  induction l with
  | nil => rfl
  | cons x xs ih => simp [sortDesc, insertDesc_length, ih]

theorem mem_insertDesc (y x : DetectionResult) (l : List DetectionResult) :
    y ∈ insertDesc x l ↔ y = x ∨ y ∈ l := by
  induction l with
  | nil => simp [insertDesc]
  | cons z zs ih =>
    by_cases h : x.confidence < z.confidence <;> simp [insertDesc, h, ih] <;> tauto

theorem mem_sortDesc (y : DetectionResult) (l : List DetectionResult) :
    y ∈ sortDesc l ↔ y ∈ l := by
  induction l with
  | nil => simp [sortDesc]
  | cons x xs ih => simp [sortDesc, mem_insertDesc, ih]

theorem insertDesc_front (x : DetectionResult) (l : List DetectionResult)
    (h : ∀ y ∈ l, ¬ x.confidence < y.confidence) : insertDesc x l = x :: l := by
  cases l with
  | nil => rfl
  | cons z zs => simp [insertDesc, h z (by simp)]

/-- The selection contract the claims describe: `r` occurs in `l` with
maximal confidence, and strictly greater confidence than everything before
it (so, among ties on the maximum, it is the first in list order). -/
def IsFirstMax (l : List DetectionResult) (r : DetectionResult) : Prop :=
  ∃ l₁ l₂, l = l₁ ++ r :: l₂ ∧ (∀ x ∈ l₁, x.confidence < r.confidence) ∧
    ∀ x ∈ l, x.confidence ≤ r.confidence

theorem sortDesc_head_firstMax :
    ∀ (l : List DetectionResult) (r : DetectionResult),
      (sortDesc l).head? = some r → IsFirstMax l r := by
  intro l
  induction l with
  | nil => intro r h; simp [sortDesc] at h
  | cons x xs ih =>
    intro r h
    rw [sortDesc] at h
    cases hs : sortDesc xs with
    | nil =>
      have hxs : xs = [] := by
        have hl := sortDesc_length xs
        rw [hs] at hl
        exact List.length_eq_zero.mp hl.symm
      rw [hs] at h
      simp [insertDesc] at h
      exact ⟨[], xs, by simp [h], by simp, by
        intro y hy
        rcases List.mem_cons.mp hy with h1 | h1
        · rw [h1, h]
        · rw [hxs] at h1; cases h1⟩
    | cons hh t =>
      rw [hs] at h
      have ihh : IsFirstMax xs hh := ih hh (by rw [hs]; rfl)
      obtain ⟨l₁, l₂, hdec, hlt, hle⟩ := ihh
      by_cases hc : x.confidence < hh.confidence
      · have hr : r = hh := by simpa [insertDesc, hc] using h.symm
        subst hr
        refine ⟨x :: l₁, l₂, by simp [hdec], ?_, ?_⟩
        · intro y hy
          rcases List.mem_cons.mp hy with h1 | h1
          · rw [h1]; exact hc
          · exact hlt y h1
        · intro y hy
          rcases List.mem_cons.mp hy with h1 | h1
          · rw [h1]; exact le_of_lt hc
          · exact hle y h1
      · have hr : r = x := by simpa [insertDesc, hc] using h.symm
        subst hr
        refine ⟨[], xs, rfl, by simp, ?_⟩
        intro y hy
        rcases List.mem_cons.mp hy with h1 | h1
        · rw [h1]
        · exact le_trans (hle y h1) (not_lt.mp hc)

/-! Lemmas about characters, trimming and digit strings. -/

theorem jsWs_false_of_digit {c : Char} (h : isDigitC c = true) : jsWs c = false := by
  simp only [isDigitC, decide_eq_true_eq] at h
  simp only [jsWs, decide_eq_false_iff_not]
  omega

theorem jsWs_false_of_urlB64 {c : Char} (h : urlB64Char c = true) : jsWs c = false := by
  simp only [urlB64Char, alphaNumNat, decide_eq_true_eq] at h
  simp only [jsWs, decide_eq_false_iff_not]
  omega

theorem jsWs_false_of_b64Alpha {c : Char} (h : b64AlphaChar c = true) : jsWs c = false := by
  simp only [b64AlphaChar, alphaNumNat, decide_eq_true_eq] at h
  simp only [jsWs, decide_eq_false_iff_not]
  omega

theorem dropWhile_eq_self {p : Char → Bool} {l : List Char}
    (h : ∀ c ∈ l, p c = false) : l.dropWhile p = l := by
  cases l with
  | nil => rfl
  | cons c t => simp [List.dropWhile_cons, h c (by simp)]

theorem takeWhile_eq_self {p : Char → Bool} :
    ∀ {l : List Char}, (∀ c ∈ l, p c = true) → l.takeWhile p = l := by
  intro l
  induction l with
  | nil => intro _; rfl
  | cons c t ih =>
    intro h
    simp [List.takeWhile_cons, h c (by simp), ih fun x hx => h x (by simp [hx])]

theorem jsTrimL_eq_self {l : List Char} (h : ∀ c ∈ l, jsWs c = false) :
    jsTrimL l = l := by
  unfold jsTrimL
  rw [dropWhile_eq_self h,
    dropWhile_eq_self fun c hc => h c (List.mem_reverse.mp hc),
    List.reverse_reverse]

theorem toUnitsL_bmp : ∀ {l : List Char}, (∀ c ∈ l, c.toNat < 0x10000) →
    toUnitsL l = l.map Char.toNat := by
  intro l
  induction l with
  | nil => intro _; rfl
  | cons c t ih =>
    intro h
    have hc := h c (by simp)
    have ht := ih fun x hx => h x (by simp [hx])
    simp only [toUnitsL, List.map_cons, List.flatten_cons, if_pos hc] at ht ⊢
    rw [ht]
    rfl

theorem jsLengthL_eq_length {l : List Char} (h : ∀ c ∈ l, c.toNat < 0x10000) :
    jsLengthL l = l.length := by
  unfold jsLengthL
  rw [toUnitsL_bmp h]
  simp

theorem splitOnDot_no_dot : ∀ {l : List Char}, (∀ c ∈ l, c.toNat ≠ 46) →
    splitOnDot l = [l] := by
  intro l
  induction l with
  | nil => intro _; rfl
  | cons c t ih =>
    intro h
    have ht := ih fun x hx => h x (by simp [hx])
    simp [splitOnDot, h c (by simp), ht]

theorem jsParseInt_digits {l : List Char} (h : ∀ c ∈ l, isDigitC c = true)
    (hne : l ≠ []) : jsParseInt l = some ((digitsVal l : ℤ)) := by
  have hws : ∀ c ∈ l, jsWs c = false := fun c hc => jsWs_false_of_digit (h c hc)
  cases l with
  | nil => exact absurd rfl hne
  | cons c t =>
    have hc := h c (by simp)
    simp only [isDigitC, decide_eq_true_eq] at hc
    have h45 : ¬ c.toNat = 45 := by omega
    have h43 : ¬ c.toNat = 43 := by omega
    simp only [jsParseInt, dropWhile_eq_self hws, if_neg h45, if_neg h43,
      takeWhile_eq_self h]
    simp

/-! Bridging lemmas between the classifier, its candidate list and the
explicit-exception variants. -/

theorem detectFormat_eq_head (now : ℕ) (s : String) (h2 : jsTrimL s.toList ≠ []) :
    detectFormat now s = (sortDesc (candidates now (jsTrimL s.toList))).head? := by
  have h1 : s.toList ≠ [] := fun he => h2 (by rw [he]; rfl)
  have e1 : s.toList.isEmpty = false := by simpa using h1
  have e2 : (jsTrimL s.toList).isEmpty = false := by simpa using h2
  simp only [detectFormat, e1, e2, Bool.false_eq_true, if_false]
  cases sortDesc (candidates now (jsTrimL s.toList)) <;> rfl

theorem detectFormat_mem {now : ℕ} {s : String} {r : DetectionResult}
    (h : detectFormat now s = some r) :
    r ∈ candidates now (jsTrimL s.toList) ∧ jsTrimL s.toList ≠ [] := by
  simp only [detectFormat] at h
  split at h
  · cases h
  · split at h
    · cases h
    · rename_i hne2
      split at h
      · cases h
      · rename_i a t hs
        have ha : a = r := by simpa using h
        subst ha
        refine ⟨?_, by simpa using hne2⟩
        have : a ∈ sortDesc (candidates now (jsTrimL s.toList)) := by
          rw [hs]; simp
        exact (mem_sortDesc a _).mp this

theorem jwtValidateE_ok (c : List Char) : jwtValidateE c = .ok (jwtValidate c) := by
  unfold jwtValidate jwtValidateE
  split
  · split <;> rfl
  · rfl

theorem jsonValidateE_ok (c : List Char) : jsonValidateE c = .ok (jsonValidate c) := by
  unfold jsonValidate jsonValidateE
  split <;> rfl

theorem base64ValidateE_ok (c : List Char) : base64ValidateE c = .ok (base64Validate c) := by
  unfold base64Validate base64ValidateE
  dsimp only
  split
  · rfl
  · split <;> rfl

theorem regexValidateE_ok (c : List Char) : regexValidateE c = .ok (regexValidate c) := by
  unfold regexValidate regexValidateE
  split
  · split <;> rfl
  · rfl

theorem ite_validateE {p v : Bool} {vE : Except JsError Bool} (h : vE = .ok v) :
    (if p = true then vE else .ok false) = Except.ok (p && v) := by
  cases p <;> simp [h]

theorem candidatesE_ok (now : ℕ) (t : List Char) :
    candidatesE now t = .ok (candidates now t) := by
  unfold candidatesE candidates
  rw [ite_validateE (jwtValidateE_ok t), ite_validateE (jsonValidateE_ok t),
    ite_validateE (rfl : (Except.ok (tsValidate now t) : Except JsError Bool) = .ok (tsValidate now t)),
    ite_validateE (regexValidateE_ok t), ite_validateE (base64ValidateE_ok t)]

theorem detectFormatE_ok (now : ℕ) (s : String) :
    detectFormatE now s = .ok (detectFormat now s) := by
  unfold detectFormat detectFormatE
  dsimp only
  split
  · rfl
  · split
    · rfl
    · rw [candidatesE_ok]
      rfl

theorem processContentE_ok (sp : SmartPaste) (now : ℕ) (content : String) :
    processContentE sp now content = .ok (sp.processContent now content).2 := by
  unfold processContentE SmartPaste.processContent
  dsimp only
  cases h : sp.onDetect (processRecord now content) <;> rfl

/-! Lemmas locating candidates and eliminating descriptors. -/

theorem mem_ite_singleton {b : Bool} {r x : DetectionResult} :
    x ∈ (if b = true then [r] else []) ↔ b = true ∧ x = r := by
  cases b <;> simp

theorem mem_candidates {now : ℕ} {t : List Char} {x : DetectionResult}
    (h : x ∈ candidates now t) :
    (jwtPattern t && jwtValidate t) = true ∧ x = ⟨"jwt", "jwt", 95 / 100⟩ ∨
    (jsonPattern t && jsonValidate t) = true ∧ x = ⟨"json", "json", 9 / 10⟩ ∨
    (tsPattern t && tsValidate now t) = true ∧ x = ⟨"unixTimestamp", "timestamp", 85 / 100⟩ ∨
    (regexPattern t && regexValidate t) = true ∧ x = ⟨"regex", "regex", 9 / 10⟩ ∨
    (base64Pattern t && base64Validate t) = true ∧ x = ⟨"base64", "base64", 7 / 10⟩ := by
  simpa [candidates, List.mem_append, mem_ite_singleton] using h

theorem candidates_conf_le {now : ℕ} {t : List Char} {x : DetectionResult}
    (h : x ∈ candidates now t) : x.confidence ≤ 95 / 100 := by
  rcases mem_candidates h with ⟨_, rfl⟩ | ⟨_, rfl⟩ | ⟨_, rfl⟩ | ⟨_, rfl⟩ | ⟨_, rfl⟩ <;>
    norm_num

theorem jwtPattern_false_of_no_dot {l : List Char} (h : ∀ c ∈ l, c.toNat ≠ 46) :
    jwtPattern l = false := by
  simp [jwtPattern, splitOnDot_no_dot h]

theorem jsonPattern_false_head {c : Char} {t : List Char} (hws : jsWs c = false)
    (h91 : c.toNat ≠ 91) (h123 : c.toNat ≠ 123) : jsonPattern (c :: t) = false := by
  simp [jsonPattern, List.dropWhile_cons, hws, h91, h123]

theorem regexPattern_false_head {c : Char} {t : List Char} (h : c.toNat ≠ 47) :
    regexPattern (c :: t) = false := by
  simp [regexPattern, regexLiteralParts, h]

theorem tsPattern_false_len {l : List Char} (h : 13 < l.length) : tsPattern l = false := by
  have hd : decide (l.length ≤ 13) = false := by simp; omega
  simp [tsPattern, hd]

theorem base64Pattern_false_len {l : List Char} (h : l.length < 20) :
    base64Pattern l = false := by
  have hd : decide (20 ≤ l.length) = false := by simp; omega
  simp [base64Pattern, hd]

/-! Connecting each validator to its formalized condition. -/

theorem getMember_eq (v : JsValue) (k : List ℕ) :
    getMember v k =
      (if isNullV v then .error ⟨"TypeError"⟩ else .ok (getMemberOk v k)) := by
  cases v <;> rfl

theorem jwtValidate_eq_condB (c : List Char) : jwtValidate c = jwtCondB c := by
  unfold jwtValidate jwtValidateE jwtCondB
  rcases hsp : splitOnDot (jsTrimL c) with _ | ⟨p0, _ | ⟨p1, _ | ⟨p2, _ | ps⟩⟩⟩ <;>
    dsimp only <;> try rfl
  unfold jwtTryBody decodeJwtPart
  cases h0 : atob (b64urlNormalize p0) with
  | error e0 => dsimp only
  | ok hb =>
    dsimp only
    cases h1 : jsonParse hb with
    | error e1 => dsimp only
    | ok hv =>
      dsimp only
      cases h2 : atob (b64urlNormalize p1) with
      | error e2 => rfl
      | ok pb =>
        dsimp only
        cases h3 : jsonParse pb with
        | error e3 => rfl
        | ok pv =>
          dsimp only
          rw [getMember_eq hv typKey, getMember_eq hv algKey, getMember_eq pv iatKey,
            getMember_eq pv expKey, getMember_eq pv subKey]
          cases hn : isNullV hv <;> cases hpn : isNullV pv <;>
            cases ht : isJwtStr (getMemberOk hv typKey) <;>
            cases ha : truthy (getMemberOk hv algKey) <;>
            cases hi : truthy (getMemberOk pv iatKey) <;>
            cases hx : truthy (getMemberOk pv expKey) <;>
            simp [hn, hpn, ht, ha, hi, hx]

theorem base64Validate_eq (c : List Char) :
    base64Validate c =
      (if (jsTrimL c).any (fun x => x.toNat == 46) then false
       else
         match atob (b64urlNormalize (jsTrimL c)) with
         | .ok decoded =>
           decide (printableFrac decoded > 7 / 10) || decide (decoded.length < 50)
         | .error _ => false) := by
  unfold base64Validate base64ValidateE
  dsimp only
  by_cases hd : ((jsTrimL c).any fun x => x.toNat == 46) = true
  · simp [hd]
  · simp only [hd, Bool.false_eq_true, if_false, if_neg hd]
    cases he : atob (b64urlNormalize (jsTrimL c)) <;> simp

theorem base64_desc_eq (t : List Char) :
    (base64Pattern t && base64Validate t) = true ↔ Base64Cond t := by
  by_cases hp : base64Pattern t = true
  · have hparts : (∀ c ∈ t, b64AlphaChar c = true) ∧ 20 ≤ t.length := by
      simpa [base64Pattern, Bool.and_eq_true, List.all_eq_true] using hp
    obtain ⟨halpha, hlen⟩ := hparts
    have hnodot : ∀ c ∈ t, c.toNat ≠ 46 := by
      intro c hc
      have h2 := halpha c hc
      simp only [b64AlphaChar, alphaNumNat, decide_eq_true_eq] at h2
      omega
    have htr : jsTrimL t = t :=
      jsTrimL_eq_self fun c hc => jsWs_false_of_b64Alpha (halpha c hc)
    have hany : (t.any fun c => c.toNat == 46) = false := by
      rw [List.any_eq_false]
      intro c hc
      simpa using hnodot c hc
    rw [hp, Bool.true_and, base64Validate_eq, htr, hany]
    unfold Base64Cond DecodeOkCond decodeOkB
    cases he : atob (b64urlNormalize t) with
    | error e => simp [halpha, hlen, hnodot]
    | ok decoded =>
      dsimp only [Bool.false_eq_true, if_false]
      constructor
      · intro h
        refine ⟨halpha, hlen, hnodot, ?_⟩
        rcases Bool.or_eq_true_iff.mp h with h1 | h1 <;> simp_all
      · rintro ⟨-, -, -, h⟩
        rcases Bool.or_eq_true_iff.mp h with h1 | h1 <;> simp_all
  · have hpf : base64Pattern t = false := by simpa using hp
    rw [hpf, Bool.false_and]
    unfold Base64Cond
    constructor
    · intro h; cases h
    · rintro ⟨halpha, hlen, -, -⟩
      have : base64Pattern t = true := by
        simp only [base64Pattern, Bool.and_eq_true, List.all_eq_true, decide_eq_true_eq]
        exact ⟨halpha, hlen⟩
      rw [hpf] at this
      cases this

theorem head_of_first_max {r : DetectionResult} {rest : List DetectionResult}
    (h : ∀ y ∈ rest, y.confidence ≤ r.confidence) :
    (sortDesc (r :: rest)).head? = some r := by
  rw [sortDesc, insertDesc_front]
  · rfl
  · intro y hy
    exact not_lt.mpr (h y ((mem_sortDesc y rest).mp hy))

theorem candidates_nil (now : ℕ) : candidates now [] = [] := by
  have h1 : jwtPattern [] = false := by decide
  have h3 : tsPattern [] = false := by decide
  have h5 : base64Pattern [] = false := by decide
  simp [candidates, h1, h3, h5, jsonPattern, regexPattern, regexLiteralParts]

/-! The claims. -/

/-- Claim C8: `analyze(text)` returns exactly the Classifier's raw result —
the same value `detectFormat(text)` returns — invokes neither `onDetect` nor
`onError`, and changes no router state (neither the `enabled` flag nor the
stored callbacks). -/
theorem C8_analyze_pure (sp : SmartPaste) (now : ℕ) (content : String) :
    (sp.analyze now content).1 = detectFormat now content ∧
    (sp.analyze now content).2.1 = sp ∧
    (sp.analyze now content).2.2 = ⟨[], []⟩ :=
  ⟨rfl, rfl, rfl⟩

/-- Claim C10: if the caller-supplied `onDetect` throws when invoked by
`processContent`, the exception is caught inside `processContent` and passed
to `onError` (which the constructor defaults to a no-op when not provided),
and `processContent` returns normally in every case. -/
theorem C10_onDetect_throw_caught (od : PasteRecord → Except JsError Unit)
    (oe : Option (JsError → Unit)) (now : ℕ) (content : String) (e : JsError)
    (h : od (processRecord now content) = .error e) :
    ((SmartPaste.make (some od) oe).processContent now content).2 =
      ⟨[processRecord now content], [e]⟩ ∧
    ∀ sp : SmartPaste, (processContentE sp now content).isOk = true := by
  constructor
  · simp [SmartPaste.make, SmartPaste.processContent, Option.getD, h]
  · intro sp
    rw [processContentE_ok]
    rfl

/-- Claim C4: whenever the Classifier returns null — in particular for the
empty string and the whitespace-only string — `processContent` invokes
`onDetect` exactly once with the synthetic unknown-to-JSON fallback record,
never delivers null, and never throws. -/
theorem C4_fallback (sp : SmartPaste) (now : ℕ) (content : String) :
    (detectFormat now content = none →
      (sp.processContent now content).2.detectCalls =
        [⟨content, "unknown", "json", 0, "Unknown Format", "JSON Formatter"⟩] ∧
      (processContentE sp now content).isOk = true) ∧
    detectFormat now ("") = none ∧ detectFormat now ("   ") = none := by
  refine ⟨?_, rfl, ?_⟩
  · intro h
    have hrec : processRecord now content =
        ⟨content, "unknown", "json", 0, "Unknown Format", "JSON Formatter"⟩ := by
      unfold processRecord
      rw [h]
    constructor
    · unfold SmartPaste.processContent
      dsimp only
      cases hod : sp.onDetect (processRecord now content) <;> simp [hod, hrec]
    · rw [processContentE_ok]
      rfl
  · have h2 : jsTrimL [' ', ' ', ' '] = [] := by decide
    simp [detectFormat, h2]

/-- Claim C5: for every input string, clock reading and router, the
classifier with its exception flow made explicit returns exactly the total
classifier's result (no error escapes any validator), and `processContent`
completes via its callbacks — never by propagating an exception — even when
`onDetect` itself throws. -/
theorem C5_no_exceptions (now : ℕ) (s : String) (sp : SmartPaste) :
    detectFormatE now s = .ok (detectFormat now s) ∧
    (processContentE sp now s).isOk = true := by
  refine ⟨detectFormatE_ok now s, ?_⟩
  rw [processContentE_ok]
  rfl

/-- Claim C3 counterexample: the classifier consults the ambient clock
through the unixTimestamp plausibility bound, so the same input string
classifies differently at two clock readings — repeated calls are not
guaranteed identical results as the claim states. -/
theorem C3_counterexample :
    detectFormat 1700000000000 ("4000000000") ≠
      detectFormat 2500000000000 ("4000000000") := by
  with_unfolding_all decide

/-- Claim C3 (amended): for a fixed clock reading the classifier is a pure
deterministic function of its input string (no mutation of the rule set);
results are moreover independent of the clock whenever the trimmed input is
not a 10-to-13-digit string, the only shape on which the unixTimestamp
validator consults `Date.now()`. -/
theorem C3_determinism (s : String) (n1 n2 : ℕ) :
    detectFormat n1 s = detectFormat n1 s ∧
    (tsPattern (jsTrimL s.toList) = false → detectFormat n1 s = detectFormat n2 s) := by
  refine ⟨rfl, fun h => ?_⟩
  have h2 : tsPattern (jsTrimL s.data) = false := h
  have hc : candidates n1 (jsTrimL s.toList) = candidates n2 (jsTrimL s.toList) := by
    simp [candidates, h2]
  unfold detectFormat
  dsimp only
  rw [hc]

theorem C3_witness : detectFormat 5 ("hello") = detectFormat 6 ("hello") :=
  (C3_determinism ("hello") 5 6).2 (by decide)

theorem C4_witness :
    ((SmartPaste.make none none).processContent 0 ("   ")).2.detectCalls =
      [⟨"   ", "unknown", "json", 0, "Unknown Format", "JSON Formatter"⟩] ∧
    (processContentE (SmartPaste.make none none) 0 ("   ")).isOk = true :=
  (C4_fallback (SmartPaste.make none none) 0 ("   ")).1 (by decide)

theorem C10_witness :
    ((SmartPaste.make (some fun _ => .error ⟨"boom"⟩) none).processContent 0 ("x")).2 =
      ⟨[⟨"x", "unknown", "json", 0, "Unknown Format", "JSON Formatter"⟩], [⟨"boom"⟩]⟩ ∧
    ∀ sp : SmartPaste, (processContentE sp 0 ("x")).isOk = true := by
  have h := C10_onDetect_throw_caught (fun _ => .error ⟨"boom"⟩) none 0 ("x") ⟨"boom"⟩ rfl
  refine ⟨?_, h.2⟩
  rw [h.1]
  decide

theorem candidates_digits {now : ℕ} {t : List Char} (hd : ∀ c ∈ t, isDigitC c = true)
    (h10 : 10 ≤ t.length) (h13 : t.length ≤ 13) :
    candidates now t =
      (if tsPattern t && tsValidate now t then
        [⟨"unixTimestamp", "timestamp", 85 / 100⟩] else []) := by
  rcases t with _ | ⟨c, t2⟩
  · simp at h10
  · have hc := hd c (by simp)
    have hcn : 48 ≤ c.toNat ∧ c.toNat ≤ 57 := by simpa [isDigitC] using hc
    have hjwt : jwtPattern (c :: t2) = false :=
      jwtPattern_false_of_no_dot fun x hx => by
        have := hd x hx
        simp only [isDigitC, decide_eq_true_eq] at this
        omega
    have hjson : jsonPattern (c :: t2) = false :=
      jsonPattern_false_head (jsWs_false_of_digit hc) (by omega) (by omega)
    have hregex : regexPattern (c :: t2) = false :=
      regexPattern_false_head (by omega)
    have hb64 : base64Pattern (c :: t2) = false :=
      base64Pattern_false_len (by omega)
    simp [candidates, hjwt, hjson, hregex, hb64]

theorem digits_lengths {t : List Char} (hd : ∀ c ∈ t, isDigitC c = true) :
    (∀ c ∈ t, jsWs c = false) ∧ jsLengthL t = t.length := by
  refine ⟨fun c hc => jsWs_false_of_digit (hd c hc), jsLengthL_eq_length fun c hc => ?_⟩
  have := hd c hc
  simp only [isDigitC, decide_eq_true_eq] at this
  omega

theorem tsCond_pattern_validate {now : ℕ} {t : List Char} (h : TsCond now t) :
    tsPattern t = true ∧ tsValidate now t = true := by
  obtain ⟨hd, hcase⟩ := h
  obtain ⟨hws, hulen⟩ := digits_lengths hd
  have hne : t ≠ [] := by
    rcases hcase with ⟨hlen, -, -⟩ | ⟨hlen, -, -⟩ <;>
      (intro he; rw [he] at hlen; simp at hlen)
  have htr : jsTrimL t = t := jsTrimL_eq_self hws
  have hall : t.all isDigitC = true := List.all_eq_true.mpr hd
  constructor
  · rcases hcase with ⟨hlen, -, -⟩ | ⟨hlen, -, -⟩ <;> simp [tsPattern, hall, hlen]
  · unfold tsValidate
    rw [htr, jsParseInt_digits hd hne]
    dsimp only
    rcases hcase with ⟨hlen, hpos, hbound⟩ | ⟨hlen, hpos, hbound⟩
    · have e1 : (jsLengthL t == 10) = true := by rw [hulen, hlen]; decide
      simp only [e1, if_true]
      rw [Bool.and_eq_true, decide_eq_true_eq, decide_eq_true_eq]
      exact ⟨by exact_mod_cast hpos, by exact_mod_cast hbound⟩
    · have e1 : (jsLengthL t == 10) = false := by rw [hulen, hlen]; decide
      have e2 : (jsLengthL t == 13) = true := by rw [hulen, hlen]; decide
      simp only [e1, e2, Bool.false_eq_true, if_false, if_true]
      rw [Bool.and_eq_true, decide_eq_true_eq, decide_eq_true_eq]
      exact ⟨by exact_mod_cast hpos, by exact_mod_cast hbound⟩

theorem tsCond_of_pattern_validate {now : ℕ} {t : List Char} (hp : tsPattern t = true)
    (hv : tsValidate now t = true) : TsCond now t := by
  have hparts : ((∀ c ∈ t, isDigitC c = true) ∧ 10 ≤ t.length) ∧ t.length ≤ 13 := by
    simpa [tsPattern, Bool.and_eq_true, List.all_eq_true] using hp
  obtain ⟨⟨hd, h10⟩, h13⟩ := hparts
  obtain ⟨hws, hulen⟩ := digits_lengths hd
  have hne : t ≠ [] := by intro he; rw [he] at h10; simp at h10
  have htr : jsTrimL t = t := jsTrimL_eq_self hws
  unfold tsValidate at hv
  rw [htr, jsParseInt_digits hd hne] at hv
  dsimp only at hv
  refine ⟨hd, ?_⟩
  by_cases hL : t.length = 10
  · left
    have e1 : (jsLengthL t == 10) = true := by rw [hulen, hL]; decide
    simp only [e1, if_true] at hv
    rw [Bool.and_eq_true, decide_eq_true_eq, decide_eq_true_eq] at hv
    exact ⟨hL, by exact_mod_cast hv.1, by exact_mod_cast hv.2⟩
  · by_cases hM : t.length = 13
    · right
      have e1 : (jsLengthL t == 10) = false := by rw [hulen, hM]; decide
      have e2 : (jsLengthL t == 13) = true := by rw [hulen, hM]; decide
      simp only [e1, e2, Bool.false_eq_true, if_false, if_true] at hv
      rw [Bool.and_eq_true, decide_eq_true_eq, decide_eq_true_eq] at hv
      exact ⟨hM, by exact_mod_cast hv.1, by exact_mod_cast hv.2⟩
    · exfalso
      have e1 : (jsLengthL t == 10) = false := by
        rw [hulen]
        exact beq_eq_false_iff_ne.mpr hL
      have e2 : (jsLengthL t == 13) = false := by
        rw [hulen]
        exact beq_eq_false_iff_ne.mpr hM
      simp only [e1, e2, Bool.false_eq_true, if_false] at hv

theorem ts_detect {now : ℕ} {s : String} (h : TsCond now (jsTrimL s.toList)) :
    detectFormat now s = some ⟨"unixTimestamp", "timestamp", 85 / 100⟩ := by
  obtain ⟨hp, hv⟩ := tsCond_pattern_validate h
  have hlens : 10 ≤ (jsTrimL s.toList).length ∧ (jsTrimL s.toList).length ≤ 13 := by
    have h2 := (by simpa [tsPattern, Bool.and_eq_true, List.all_eq_true] using hp :
      ((∀ c ∈ jsTrimL s.toList, isDigitC c = true) ∧
        10 ≤ (jsTrimL s.toList).length) ∧ (jsTrimL s.toList).length ≤ 13)
    exact ⟨h2.1.2, h2.2⟩
  have hne : jsTrimL s.toList ≠ [] := by
    intro he
    rw [he] at hlens
    simp at hlens
  rw [detectFormat_eq_head now s hne,
    candidates_digits h.1 hlens.1 hlens.2, hp, hv]
  rfl

theorem ts_of_detect {now : ℕ} {s : String} {r : DetectionResult}
    (h : detectFormat now s = some r) (hf : r.format = "unixTimestamp") :
    TsCond now (jsTrimL s.toList) ∧ r = ⟨"unixTimestamp", "timestamp", 85 / 100⟩ := by
  obtain ⟨hmem, -⟩ := detectFormat_mem h
  rcases mem_candidates hmem with ⟨hc, rfl⟩ | ⟨hc, rfl⟩ | ⟨hc, rfl⟩ | ⟨hc, rfl⟩ | ⟨hc, rfl⟩ <;>
    first
    | exact absurd hf (by decide)
    | (rw [Bool.and_eq_true] at hc
       exact ⟨tsCond_of_pattern_validate hc.1 hc.2, rfl⟩)

/-- Claim C9: every string of 11 or 12 ASCII digits classifies as null: the
unixTimestamp structural pattern matches such a string but its validator
accepts only lengths 10 and 13, and no other descriptor can structurally
match an all-digit string shorter than 20 characters. -/
theorem C9_digits_11_12_null (now : ℕ) (s : String)
    (hd : ∀ c ∈ s.toList, isDigitC c = true)
    (hl : s.toList.length = 11 ∨ s.toList.length = 12) :
    detectFormat now s = none := by
  obtain ⟨hws, hulen⟩ := digits_lengths hd
  have htr : jsTrimL s.toList = s.toList := jsTrimL_eq_self hws
  have hne : s.toList ≠ [] := by
    intro he
    rw [he] at hl
    simp at hl
  have hts : tsValidate now s.toList = false := by
    unfold tsValidate
    rw [htr, jsParseInt_digits hd hne]
    dsimp only
    have e1 : (jsLengthL s.toList == 10) = false := by
      rw [hulen]
      exact beq_eq_false_iff_ne.mpr (by omega)
    have e2 : (jsLengthL s.toList == 13) = false := by
      rw [hulen]
      exact beq_eq_false_iff_ne.mpr (by omega)
    simp only [e1, e2, Bool.false_eq_true, if_false]
  rw [detectFormat_eq_head now s (by rw [htr]; exact hne), htr,
    candidates_digits hd (by omega) (by omega), hts]
  simp [sortDesc]

theorem C9_witness : detectFormat 0 ("12345678901") = none :=
  C9_digits_11_12_null 0 ("12345678901") (by decide) (by decide)

/-- Claim C6: `detectFormat` yields format `unixTimestamp` exactly under
`TsCond` — the trimmed input is 10 or 13 ASCII digits whose value is
positive and below roughly fifty years past `now` (seconds for length 10,
milliseconds for length 13) — and the result then carries tool `timestamp`
and confidence 0.85, as in scenario 3. -/
theorem C6_unixTimestamp (now : ℕ) (s : String) :
    (((detectFormat now s).map DetectionResult.format = some ("unixTimestamp")) ↔
      TsCond now (jsTrimL s.toList)) ∧
    (TsCond now (jsTrimL s.toList) →
      detectFormat now s = some ⟨"unixTimestamp", "timestamp", 85 / 100⟩) := by
  constructor
  · constructor
    · intro hmap
      cases hdet : detectFormat now s with
      | none => rw [hdet] at hmap; simp at hmap
      | some r =>
        rw [hdet] at hmap
        have hmap2 : r.format = "unixTimestamp" := by simpa using hmap
        exact (ts_of_detect hdet hmap2).1
    · intro hc
      rw [ts_detect hc]
      rfl
  · exact fun hc => ts_detect hc

theorem C6_witness :
    detectFormat 1700000000000 ("1700000000") =
      some ⟨"unixTimestamp", "timestamp", 85 / 100⟩ :=
  (C6_unixTimestamp 1700000000000 ("1700000000")).2 (by with_unfolding_all decide)

/-- Claim C1: on any input where more than one descriptor passes both its
structural test and its semantic validator, `detectFormat` returns a
non-null result that attains the maximum confidence among the validating
descriptors and, among ties on that maximum, is the candidate of the
descriptor encountered first in the fixed evaluation order jwt, json,
unixTimestamp, regex, base64 — the order of the `candidates` list;
`IsFirstMax` states exactly this selection contract. -/
theorem C1_priority (now : ℕ) (s : String)
    (h : 1 < (candidates now (jsTrimL s.toList)).length) :
    ∃ r, detectFormat now s = some r ∧
      IsFirstMax (candidates now (jsTrimL s.toList)) r := by
  have hne : candidates now (jsTrimL s.toList) ≠ [] := by
    intro he
    rw [he] at h
    simp at h
  have htne : jsTrimL s.toList ≠ [] := by
    intro he
    rw [he] at hne
    exact hne (candidates_nil now)
  rw [detectFormat_eq_head now s htne]
  cases hs : sortDesc (candidates now (jsTrimL s.toList)) with
  | nil =>
    exfalso
    have hl := sortDesc_length (candidates now (jsTrimL s.toList))
    rw [hs] at hl
    exact hne (List.length_eq_zero.mp hl.symm)
  | cons a tl =>
    exact ⟨a, rfl, sortDesc_head_firstMax _ a (by rw [hs]; rfl)⟩

theorem C1_witness :
    1 < (candidates 0 (jsTrimL (("/aaaaaaaaaaaaaaaaaa/").toList))).length ∧
    ∃ r, detectFormat 0 ("/aaaaaaaaaaaaaaaaaa/") = some r ∧
      IsFirstMax (candidates 0 (jsTrimL (("/aaaaaaaaaaaaaaaaaa/").toList))) r :=
  ⟨by with_unfolding_all decide,
    C1_priority 0 ("/aaaaaaaaaaaaaaaaaa/") (by with_unfolding_all decide)⟩

/-- Claim C2 counterexample, one input per flaw of the stated condition.
On `NQ.eyJzdWIiOjF9.x` the header decodes to the JSON number `5`, not an
object, yet the validator accepts through the payload's truthy `sub`.  On
`e30.Ingi.x` the header decodes to `\x7b\x7d` and the payload to the JSON
string `"x"`, not an object, yet the validator accepts: `payload.sub`
resolves through the prototype chain to the function `String.prototype.sub`,
which is truthy.  On `eyJhbGciOjB9.e30.x` both parts decode to objects
and the header has an `alg` member whose value is `0`: the claim's presence
test is satisfied, while the validator, which tests truthiness, rejects.
And on `e30.eyJzdWIiOjFlLTQwMH0=.x` the payload decodes to the object with
a `sub` member written `1e-400`: the member is present, but the literal
underflows to the double `0`, falsy, so the validator again rejects. -/
theorem C2_counterexample :
    (jwtValidate (("NQ.eyJzdWIiOjF9.x").toList) = true ∧
      ¬ JwtCondSpec (("NQ.eyJzdWIiOjF9.x").toList)) ∧
    (jwtValidate (("e30.Ingi.x").toList) = true ∧
      ¬ JwtCondSpec (("e30.Ingi.x").toList)) ∧
    (jwtValidate (("eyJhbGciOjB9.e30.x").toList) = false ∧
      JwtCondSpec (("eyJhbGciOjB9.e30.x").toList)) ∧
    (jwtValidate (("e30.eyJzdWIiOjFlLTQwMH0=.x").toList) = false ∧
      JwtCondSpec (("e30.eyJzdWIiOjFlLTQwMH0=.x").toList)) :=
  ⟨⟨by with_unfolding_all decide, by with_unfolding_all decide⟩,
    ⟨by with_unfolding_all decide, by with_unfolding_all decide⟩,
    ⟨by with_unfolding_all decide, by with_unfolding_all decide⟩,
    ⟨by with_unfolding_all decide, by with_unfolding_all decide⟩⟩

/-- Claim C2 (amended): the jwt descriptor's semantic validator accepts
exactly under `JwtCond` — exactly three dot-separated parts of the trimmed
content, the first two of which base64url-decode and JSON-parse to any JSON
values, with the code's member checks following JavaScript semantics:
null-safe, truthiness-based and prototype-aware (a string payload has a
truthy `sub`) — and any input whose trimmed form additionally matches the
jwt structural pattern classifies as format jwt, tool jwt, confidence 0.95
(in particular the scenario-2 token). -/
theorem C2_jwt (now : ℕ) (s : String) (c : List Char) :
    (jwtValidate c = true ↔ JwtCond c) ∧
    (jwtPattern (jsTrimL s.toList) = true → jwtValidate (jsTrimL s.toList) = true →
      detectFormat now s = some ⟨"jwt", "jwt", 95 / 100⟩) := by
  constructor
  · rw [jwtValidate_eq_condB]
    exact Iff.rfl
  · intro hp hv
    have htne : jsTrimL s.toList ≠ [] := by
      intro he
      rw [he] at hp
      exact absurd hp (by decide)
    rw [detectFormat_eq_head now s htne]
    have hco : (jwtPattern (jsTrimL s.toList) && jwtValidate (jsTrimL s.toList)) = true := by
      rw [hp, hv]; rfl
    have hcand : candidates now (jsTrimL s.toList) =
        ⟨"jwt", "jwt", 95 / 100⟩ ::
          ((if (jsonPattern (jsTrimL s.toList) && jsonValidate (jsTrimL s.toList)) = true then
              [⟨"json", "json", 9 / 10⟩] else []) ++
            (if (tsPattern (jsTrimL s.toList) && tsValidate now (jsTrimL s.toList)) = true then
              [⟨"unixTimestamp", "timestamp", 85 / 100⟩] else []) ++
            (if (regexPattern (jsTrimL s.toList) && regexValidate (jsTrimL s.toList)) = true then
              [⟨"regex", "regex", 9 / 10⟩] else []) ++
            (if (base64Pattern (jsTrimL s.toList) && base64Validate (jsTrimL s.toList)) = true then
              [⟨"base64", "base64", 7 / 10⟩] else [])) := by
      unfold candidates
      rw [if_pos hco]
      simp [List.append_assoc]
    rw [hcand]
    refine head_of_first_max ?_
    intro y hy
    have hym : y ∈ candidates now (jsTrimL s.toList) := by
      rw [hcand]
      exact List.mem_cons_of_mem _ hy
    exact candidates_conf_le hym

theorem C2_witness :
    detectFormat 0
      ("eyJhbGciOiJIUzI1NiIsInR5cCI6IkpXVCJ9.eyJzdWIiOiIxMjM0NTY3ODkwIn0.signature") =
      some ⟨"jwt", "jwt", 95 / 100⟩ :=
  (C2_jwt 0
    ("eyJhbGciOiJIUzI1NiIsInR5cCI6IkpXVCJ9.eyJzdWIiOiIxMjM0NTY3ODkwIn0.signature")
    []).2 (by decide) (by with_unfolding_all decide)

/-- Claim C7 counterexample, one input per flaw of the stated claim.  The
first input is the base64 encoding of fifty `~` (byte 126) characters: with
the code's printable range `[32,127)` the printable fraction is 1 and the
validator accepts, while the claim's `[32,126)` gives fraction 0 over 50
bytes, so the claim's condition rejects.  The second input,
`/aaaaaaaaaaaaaaaaaa/`, is accepted by the base64 descriptor (its pattern
matches and its validator accepts), yet classifies as format regex at
confidence 0.9, not base64 at 0.7 — refuting the claim's unconditional
classification clause. -/
theorem C7_counterexample :
    ((base64Pattern (("fn5+fn5+fn5+fn5+fn5+fn5+fn5+fn5+fn5+fn5+fn5+fn5+fn5+fn5+fn5+fn5+fn4=").toList) &&
      base64Validate (("fn5+fn5+fn5+fn5+fn5+fn5+fn5+fn5+fn5+fn5+fn5+fn5+fn5+fn5+fn5+fn5+fn4=").toList)) = true ∧
    ¬ Base64CondSpec (("fn5+fn5+fn5+fn5+fn5+fn5+fn5+fn5+fn5+fn5+fn5+fn5+fn5+fn5+fn5+fn5+fn4=").toList)) ∧
    ((base64Pattern (("/aaaaaaaaaaaaaaaaaa/").toList) &&
      base64Validate (("/aaaaaaaaaaaaaaaaaa/").toList)) = true ∧
    detectFormat 0 ("/aaaaaaaaaaaaaaaaaa/") = some ⟨"regex", "regex", 9 / 10⟩) :=
  ⟨⟨by with_unfolding_all decide, by with_unfolding_all decide⟩,
    ⟨by with_unfolding_all decide, by with_unfolding_all decide⟩⟩

/-- Claim C7 (amended): the base64 descriptor (structural test plus
semantic validator) accepts exactly under `Base64Cond` — alphabet text of
length at least 20 with no dot that decodes, with decoded length below 50
or printable fraction above 0.7, where printable is the code's range
`[32,127)` — and an accepted input on which the regex descriptor (the only
other descriptor able to overlap the base64 alphabet) does not also
validate classifies as format base64, tool base64, confidence 0.7 (in
particular scenario 5). -/
theorem C7_base64 (now : ℕ) (s : String) (t : List Char) :
    ((base64Pattern t && base64Validate t) = true ↔ Base64Cond t) ∧
    ((base64Pattern (jsTrimL s.toList) && base64Validate (jsTrimL s.toList)) = true →
      (regexPattern (jsTrimL s.toList) && regexValidate (jsTrimL s.toList)) = false →
      detectFormat now s = some ⟨"base64", "base64", 7 / 10⟩) := by
  refine ⟨base64_desc_eq t, fun hb hr => ?_⟩
  obtain ⟨halpha, hlen, hnodot, -⟩ := (base64_desc_eq (jsTrimL s.toList)).mp hb
  have htne : jsTrimL s.toList ≠ [] := by
    intro he
    rw [he] at hlen
    simp at hlen
  have hjwt : jwtPattern (jsTrimL s.toList) = false := jwtPattern_false_of_no_dot hnodot
  rw [detectFormat_eq_head now s htne]
  cases hls : jsTrimL s.toList with
  | nil => exact absurd hls htne
  | cons c t2 =>
    rw [hls] at halpha hlen hjwt hb hr
    have hcAlpha := halpha c (by simp)
    have hcn : alphaNumNat c.toNat ∨ c.toNat = 43 ∨ c.toNat = 47 ∨ c.toNat = 61 ∨
        c.toNat = 95 ∨ c.toNat = 45 := by
      simpa [b64AlphaChar] using hcAlpha
    have hcn2 : (65 ≤ c.toNat ∧ c.toNat ≤ 90) ∨ (97 ≤ c.toNat ∧ c.toNat ≤ 122) ∨
        (48 ≤ c.toNat ∧ c.toNat ≤ 57) ∨ c.toNat = 43 ∨ c.toNat = 47 ∨ c.toNat = 61 ∨
        c.toNat = 95 ∨ c.toNat = 45 := by
      rcases hcn with hA | h
      · rcases hA with h | h | h
        · exact Or.inl h
        · exact Or.inr (Or.inl h)
        · exact Or.inr (Or.inr (Or.inl h))
      · right; right; right; exact h
    have hjson : jsonPattern (c :: t2) = false :=
      jsonPattern_false_head (jsWs_false_of_b64Alpha hcAlpha) (by omega) (by omega)
    have hts : tsPattern (c :: t2) = false := tsPattern_false_len (by omega)
    simp [candidates, hjwt, hjson, hts, hr, hb, sortDesc, insertDesc]

theorem C7_witness :
    detectFormat 0 ("SGVsbG8sIFdvcmxkIQ==") = some ⟨"base64", "base64", 7 / 10⟩ :=
  (C7_base64 0 ("SGVsbG8sIFdvcmxkIQ==")
    (jsTrimL (("SGVsbG8sIFdvcmxkIQ==").toList))).2
    (by with_unfolding_all decide) (by decide)

example : atob (("NQ").toList) = .ok [53] := by decide

example : atob (("SGVsbG8sIFdvcmxkIQ==").toList) =
    .ok [72, 101, 108, 108, 111, 44, 32, 87, 111, 114, 108, 100, 33] := by decide

example : jsParseInt (("1700000000").toList) = some 1700000000 := by decide

example : splitOnDot (("a.b.").toList) = [['a'], ['b'], []] := by decide

end DevToy
